import Mathlib

/-!
# Verification of the useq-schema MDA event-expansion engine

Shallow embedding of `src/useq/_mda_sequence.py` (plus the parts of
`_position.py` it relies on).  The collaborating plan modules
(`_z.py`, `_time.py`, `_grid.py`, `_channel.py`, `_autofocus.py`,
`_mda_event.py`, `_base_model.py`) are not present in the source tree;
where a definition depends on them it is modelled from the
specification's iteration contract (spec §3, §6) and is marked
`Modelled from the spec` in its doc comment.

Python floats are modelled as `ℚ`; Python `None` as `Option.none`;
the mutable `_fov_size` / `_length` private attributes as an explicit
field and an explicitly threaded cache value; the internal `_SkipFrame`
exception as `Except Unit`.
-/

namespace Useq

/-- The axis tags `TIME = "t"`, `CHANNEL = "c"`, `POSITION = "p"`, `Z = "z"`,
`GRID = "g"` from `_mda_sequence.py`. -/
inductive Axis : Type
  | t | p | g | c | z
deriving DecidableEq, Repr, BEq

instance : LawfulBEq Axis where
  eq_of_beq := by
    intro a b h
    cases a <;> cases b <;> first | rfl | exact Bool.noConfusion h
  rfl := by intro a; cases a <;> rfl

/-- `INDICES = (TIME, POSITION, GRID, CHANNEL, Z)`. -/
def INDICES : List Axis := [.t, .p, .g, .c, .z]

/-- The per-event `index` mapping (axis → integer index); a Python dict whose
keys are drawn from the five fixed axes, modelled as a record of options
(field = `none` ↔ key absent). -/
structure Index where
  t : Option ℕ := none
  p : Option ℕ := none
  g : Option ℕ := none
  c : Option ℕ := none
  z : Option ℕ := none
deriving DecidableEq, Repr

/-- Dictionary lookup `index[ax]` / `ax in index`. -/
def Index.get : Index → Axis → Option ℕ
  | i, .t => i.t
  | i, .p => i.p
  | i, .g => i.g
  | i, .c => i.c
  | i, .z => i.z

/-- Dictionary update `index[ax] = v`. -/
def Index.set : Index → Axis → Option ℕ → Index
  | i, .t, v => { i with t := v }
  | i, .p, v => { i with p := v }
  | i, .g, v => { i with g := v }
  | i, .c, v => { i with c := v }
  | i, .z, v => { i with z := v }

/-- `{**parent, **child}`: the child's entries win where present. -/
def Index.merge (parent child : Index) : Index where
  t := child.t.orElse fun _ => parent.t
  p := child.p.orElse fun _ => parent.p
  g := child.g.orElse fun _ => parent.g
  c := child.c.orElse fun _ => parent.c
  z := child.z.orElse fun _ => parent.z

/-- Modelled from the spec (§6, `_grid.py` is not in the source tree):
a grid/tile plan's iteration yields "position-like values with at least
`x` and `y` (and a relativity flag)"; `_get_grid_xy` additionally tests
each coordinate against `None`, so both are optional. -/
structure GridPosition where
  x : Option ℚ
  y : Option ℚ
  is_relative : Bool
deriving DecidableEq, Repr

/-- Modelled from the spec (§6, `_grid.py` is not in the source tree):
a configured grid plan, iterated via
`grid_plan.iter_grid_positions(fov_width, fov_height)` — a finite,
deterministic, restartable list of `GridPosition`s that may depend on the
field-of-view size — plus the plan-level `is_relative` flag read by
`MDASequence._check_order`.  `NoGrid` (the falsy no-op plan) is the `none`
of the surrounding `Option GridPlanData`. -/
structure GridPlanData where
  iter_grid_positions : ℚ → ℚ → List GridPosition
  is_relative : Bool

/-- Modelled from the spec (§3, `_channel.py` is not in the source tree):
configuration name + group, exposure time, `do_stack` flag, optional
z-offset and `acquire_every` stride, exactly the attributes
`_mda_sequence.py` reads. -/
structure Channel where
  config : String
  group : String := "Channel"
  exposure : Option ℚ := none
  do_stack : Bool := true
  z_offset : Option ℚ := none
  acquire_every : ℕ := 1
deriving DecidableEq, Repr

/-- Modelled from the spec (§6, `_z.py` is not in the source tree): a
configured z plan is an ordered list of z values plus an `is_relative`
flag; the falsy no-op `NoZ` is the `none` of the surrounding
`Option ZPlanData`. -/
structure ZPlanData where
  values : List ℚ
  is_relative : Bool
deriving DecidableEq, Repr

/-- Modelled from the spec (`_autofocus.py` is not in the source tree):
the `AxesBasedAF` plan with the attributes `_mda_sequence.py` reads:
`axes`, `autofocus_z_device_name`, `z_stage_position`, `af_motor_offset`. -/
structure AxesBasedAFData where
  axes : Option (List Axis) := none
  autofocus_z_device_name : Option String := none
  z_stage_position : Option ℚ := none
  af_motor_offset : Option ℚ := none
deriving DecidableEq, Repr

/-- `AnyAF = Union[AxesBasedAF, NoAF]`.  Modelled from the spec
(`_autofocus.py` is not in the source tree). -/
inductive AnyAF : Type
  | noAF
  | axesBased (af : AxesBasedAFData)
deriving DecidableEq, Repr

/-- `isinstance(af, AxesBasedAF)`. -/
def AnyAF.isAxesBased : AnyAF → Bool
  | .noAF => false
  | .axesBased _ => true

/-- Python truthiness of an autofocus plan object: `NoAF` is falsy (spec
§4.2 step 8 synthesizes the bare event only when the position "carries its
own autofocus plan"). -/
def AnyAF.truthy : AnyAF → Bool
  | .noAF => false
  | .axesBased _ => true

/-- Python truthiness of `autofocus_z_device_name` (an empty string is
falsy). -/
def deviceTruthy : Option String → Bool
  | some s => !s.isEmpty
  | none => false

mutual
/-- `MDASequence` (`_mda_sequence.py`): the declared pydantic fields, in
source order, plus the private attributes `_uid` (modelled as a `ℕ`
identity) and `_fov_size`.  The `_length` cache is threaded explicitly by
`lenWithCache` below. -/
inductive MDASequence : Type
  | mk (metadata : List (String × String))
       (axis_order : List Axis)
       (stage_positions : List Position)
       (grid_plan : Option GridPlanData)
       (channels : List Channel)
       (time_plan : Option (List ℚ))
       (z_plan : Option ZPlanData)
       (autofocus_plan : AnyAF)
       (uid : ℕ)
       (fov_size : ℚ × ℚ)

/-- `Position` (`_position.py`): x/y/z each independently optional, an
optional name and an optional nested sub-sequence (device-property
overrides are never read by the engine and are omitted). -/
inductive Position : Type
  | mk (x y z : Option ℚ) (name : Option String) (sequence : Option MDASequence)
end

def MDASequence.metadata : MDASequence → List (String × String)
  | .mk m _ _ _ _ _ _ _ _ _ => m

def MDASequence.axis_order : MDASequence → List Axis
  | .mk _ a _ _ _ _ _ _ _ _ => a

def MDASequence.stage_positions : MDASequence → List Position
  | .mk _ _ p _ _ _ _ _ _ _ => p

def MDASequence.grid_plan : MDASequence → Option GridPlanData
  | .mk _ _ _ g _ _ _ _ _ _ => g

def MDASequence.channels : MDASequence → List Channel
  | .mk _ _ _ _ c _ _ _ _ _ => c

def MDASequence.time_plan : MDASequence → Option (List ℚ)
  | .mk _ _ _ _ _ t _ _ _ _ => t

def MDASequence.z_plan : MDASequence → Option ZPlanData
  | .mk _ _ _ _ _ _ z _ _ _ => z

def MDASequence.autofocus_plan : MDASequence → AnyAF
  | .mk _ _ _ _ _ _ _ af _ _ => af

def MDASequence.uid : MDASequence → ℕ
  | .mk _ _ _ _ _ _ _ _ u _ => u

def MDASequence.fov_size : MDASequence → ℚ × ℚ
  | .mk _ _ _ _ _ _ _ _ _ f => f

def Position.x : Position → Option ℚ
  | .mk x _ _ _ _ => x

def Position.y : Position → Option ℚ
  | .mk _ y _ _ _ => y

def Position.z : Position → Option ℚ
  | .mk _ _ z _ _ => z

def Position.name : Position → Option String
  | .mk _ _ _ n _ => n

def Position.sequence : Position → Option MDASequence
  | .mk _ _ _ _ s => s

/-- `set_fov_size`: records the field-of-view size.  In the source this
mutates the private `_fov_size` attribute and touches nothing else — in
particular it does not reset the `_length` cache. -/
def MDASequence.set_fov_size : MDASequence → ℚ × ℚ → MDASequence
  | .mk m a p g c t z af u _, fov => .mk m a p g c t z af u fov

/-- The one use of `replace` made by the engine
(`pos_seq.replace(autofocus_plan=sequence.autofocus_plan)`, line 511):
a fresh object with the given autofocus plan; private attributes are
re-initialized, so `_fov_size` resets to the default `(1, 1)`.  (The
fresh object also receives a fresh uid; no engine output depends on the
uid of an intermediate sub-sequence, so the model keeps it.) -/
def MDASequence.replaceAF : MDASequence → AnyAF → MDASequence
  | .mk m a p g c t z _ u _, af => .mk m a p g c t z af u (1, 1)

/-- Python truthiness of an `MDASequence` object.  Modelled from the spec
and the source comments (`_base_model.py` is not in the source tree):
a sequence "containing ONLY an autofocus plan" is falsy
(`_mda_sequence.py` lines 498–500), i.e. a sequence is truthy iff it
defines any of the five axis plans. -/
def MDASequence.truthy (s : MDASequence) : Bool :=
  !s.stage_positions.isEmpty || s.grid_plan.isSome || !s.channels.isEmpty ||
    s.time_plan.isSome || s.z_plan.isSome

/-! ## Axis iteration, sizes and used axes -/

/-- The heterogeneous values produced by `MDASequence.iter_axis`. -/
inductive AxisVal : Type
  | time (v : ℚ)
  | pos (p : Position)
  | chan (c : Channel)
  | zval (v : ℚ)
  | grid (g : GridPosition)

/-- `iter_axis`: the ordered value list of one axis; the grid plan receives
the sequence's current field-of-view size. -/
def MDASequence.iter_axis (s : MDASequence) : Axis → List AxisVal
  | .t => (s.time_plan.getD []).map .time
  | .p => s.stage_positions.map .pos
  | .c => s.channels.map .chan
  | .z => ((s.z_plan.map ZPlanData.values).getD []).map .zval
  | .g => match s.grid_plan with
      | none => []
      | some gp => (gp.iter_grid_positions s.fov_size.1 s.fov_size.2).map .grid

/-- `sizes[ax] = len(list(iter_axis(ax)))`. -/
def MDASequence.sizes (s : MDASequence) (ax : Axis) : ℕ :=
  (s.iter_axis ax).length

/-- `used_axes`: `axis_order` filtered to the axes of non-zero size. -/
def MDASequence.used_axes (s : MDASequence) : List Axis :=
  s.axis_order.filter fun ax => s.sizes ax ≠ 0

/-! ## Skip rules (`_skip` and the duplicated inline block) -/

/-- The sub-sequence part of the skip rules (`_skip` lines 605–631, repeated
verbatim inside `iter_sequence` lines 440–465): guarded by the truthiness
of `position.sequence`, skip a nonzero channel index when the sub-sequence
has channels together with some plan or has no plan at all, skip a
nonzero z index when the sub-sequence has its own z plan, and skip a
nonzero grid index when it has its own grid plan. -/
def subSequenceSkip (position : Option Position) (index : Index) : Bool :=
  match position with
  | none => false
  | some pos =>
    match pos.sequence with
    | none => false
    | some sq =>
      if sq.truthy then
        let plans := sq.grid_plan.isSome || sq.z_plan.isSome || sq.time_plan.isSome
        if index.c.isSome && index.c ≠ some 0 &&
            ((!sq.channels.isEmpty && plans) || !plans) then true
        else if index.z.isSome && index.z ≠ some 0 && sq.z_plan.isSome then true
        else if index.g.isSome && index.g ≠ some 0 && sq.grid_plan.isSome then true
        else false
      else false

/-- `_skip` (lines 598–632): the channel `acquire_every` stride skip
followed by the sub-sequence skip rules. -/
def skipEvent (channel : Option Channel) (position : Option Position)
    (index : Index) : Bool :=
  match channel, index.t with
  | some ch, some ti => if ti % ch.acquire_every ≠ 0 then true
      else subSequenceSkip position index
  | _, _ => subSequenceSkip position index

/-! ## Z and XY resolution -/

/-- `len(self.z_plan)`. -/
def MDASequence.zPlanLen (s : MDASequence) : ℕ :=
  ((s.z_plan.map ZPlanData.values).getD []).length

/-- `z_pos += channel.z_offset` when the channel has a z-offset. -/
def addChannelOffset (ch : Channel) (z : ℚ) : ℚ :=
  match ch.z_offset with
  | some off => z + off
  | none => z

/-- `if self.z_plan.is_relative: z_pos += getattr(position, "z", None) or 0`. -/
def MDASequence.relAdjust (s : MDASequence) (position : Option Position)
    (z : ℚ) : ℚ :=
  if (s.z_plan.map ZPlanData.is_relative).getD false then
    z + (position.bind Position.z).getD 0
  else z

/-- `MDASequence._combine_z` (lines 352–368): raises the internal
`_SkipFrame` signal (modelled as `Except.error ()`) when the active
channel has `do_stack = false` and the z index is not the central plane
`len(z_plan) // 2`; otherwise adds the channel z-offset and, for a
relative z plan, the position's z (`None` treated as 0). -/
def MDASequence.combine_z (s : MDASequence) (z_pos : ℚ) (z_ind : ℕ)
    (channel : Option Channel) (position : Option Position) :
    Except Unit ℚ :=
  match channel with
  | some ch =>
    if !ch.do_stack && z_ind ≠ s.zPlanLen / 2 then Except.error ()
    else Except.ok (s.relAdjust position (addChannelOffset ch z_pos))
  | none => Except.ok (s.relAdjust position z_pos)

/-- `_get_z` (lines 635–656): resolve the event z.  With a z value in the
combination, defer to `_combine_z`; otherwise sum position z and channel
z-offset when both exist, else fall back to the position's raw z, else
undefined. -/
def getZ (s : MDASequence) (zEntry : Option (ℕ × ℚ)) (position : Option Position)
    (channel : Option Channel) : Except Unit (Option ℚ) :=
  match zEntry with
  | some (zi, zv) => (s.combine_z zv zi channel position).map some
  | none =>
    match position with
    | some pos =>
      match pos.z, channel.bind Channel.z_offset with
      | some pz, some off => Except.ok (some (pz + off))
      | _, _ => Except.ok pos.z
    | none => Except.ok none

/-- `_get_grid_xy` (lines 659–670): x/y from the grid value; for a relative
grid value the position's committed coordinate is added, with an undefined
(or absent) position coordinate treated as 0 (`getattr(position, "x", 0)
or 0`); an undefined grid component stays undefined. -/
def getGridXY (position : Option Position) (grid : GridPosition) :
    Option ℚ × Option ℚ :=
  let x₀ := grid.x
  let y₀ := grid.y
  if grid.is_relative then
    let px := (position.bind Position.x).getD 0
    let py := (position.bind Position.y).getD 0
    (x₀.map (· + px), y₀.map (· + py))
  else
    (x₀, y₀)

/-! ## Autofocus bookkeeping -/

/-- The threaded `autofocus_axes` state: an insertion-ordered dict from
trigger axis to the index value at which autofocus last triggered
(`none` = never triggered). -/
abbrev AFState := List (Axis × Option ℕ)

/-- Dict lookup on the autofocus state. -/
def afLookup (st : AFState) (ax : Axis) : Option (Option ℕ) :=
  (st.find? fun e => e.1 == ax).map Prod.snd

/-- Dict assignment `st[ax] = v`: replace in place, or append a new key. -/
def afAssign (st : AFState) (ax : Axis) (v : Option ℕ) : AFState :=
  if st.any (fun e => e.1 == ax) then
    st.map fun e => if e.1 == ax then (ax, v) else e
  else
    st ++ [(ax, v)]

/-- `_get_autofocus_axes` (lines 382–391): the plan's trigger axes, each
mapped to "never triggered", when the plan is axes-based with a
non-`None` axes tuple and a truthy z-device name; otherwise empty. -/
def getAutofocusAxes (s : MDASequence) : AFState :=
  match s.autofocus_plan with
  | .axesBased af =>
    if af.axes.isSome && deviceTruthy af.autofocus_z_device_name then
      (af.axes.getD []).map fun ax => (ax, none)
    else []
  | .noAF => []

/-- The `suppress(KeyError)` update loop at the end of `_setup_autofocus`
(lines 734–737): record the current index for each of the plan's axes,
stopping at the first axis absent from the index. -/
def afRecordLoop (st : AFState) (axes : List Axis) (index : Index) : AFState :=
  match axes with
  | [] => st
  | ax :: rest =>
    match index.get ax with
    | some v => afRecordLoop (afAssign st ax (some v)) rest index
    | none => st

/-- `_setup_autofocus` (lines 673–739).  Removes tracked axes absent from
the current index; returns `NoAF` when nothing remains; otherwise
re-triggers when some tracked axis's recorded value differs from the
current index (or was never recorded), recomputing `z_stage_position`
anchored to the focal plane (subtracting the z-plan offset at the current
z index, falling back to the main sequence's z plan); degrades to `NoAF`
when the resulting plan lacks `z_stage_position` or `af_motor_offset`;
finally records the current index for the plan's axes. -/
def setupAutofocus (s : MDASequence) (afAxes : AFState) (index : Index)
    (z_pos : Option ℚ) (main : Option MDASequence) : AnyAF × AFState :=
  let afAxes := afAxes.filter fun e => (index.get e.1).isSome
  if afAxes.isEmpty then (.noAF, afAxes)
  else
    let trigger := afAxes.any fun e => e.2 != index.get e.1
    let autofocus : AnyAF :=
      if trigger then
        match s.autofocus_plan with
        | .axesBased af =>
          match z_pos with
          | none => .axesBased af
          | some zp =>
            let znew : Option ℚ :=
              match index.z with
              | none => some zp
              | some zi =>
                match ((s.z_plan.map ZPlanData.values).getD []).get? zi with
                | some zoff => some (zp - zoff)
                | none =>
                  match main with
                  | some m =>
                    match ((m.z_plan.map ZPlanData.values).getD []).get? zi with
                    | some zoff => some (zp - zoff)
                    | none => none
                  | none => none
            .axesBased { af with z_stage_position := znew }
        | .noAF => .noAF
      else s.autofocus_plan
    let autofocus : AnyAF :=
      match autofocus with
      | .axesBased af =>
        if af.z_stage_position.isNone || af.af_motor_offset.isNone then .noAF
        else .axesBased af
      | .noAF => .noAF
    let afAxes :=
      match autofocus with
      | .axesBased af => afRecordLoop afAxes (af.axes.getD []) index
      | .noAF => afAxes
    (autofocus, afAxes)

/-! ## The event record -/

/-- `MDAEvent`.  Modelled from the spec (§3 "Event Record",
`_mda_event.py` is not in the source tree): per-axis index mapping,
earliest start time, position name, resolved x/y/z, exposure, resolved
channel (config + group only), autofocus directive, back-reference to the
owning sequence (modelled by its uid) and the running `global_index`. -/
structure MDAEvent where
  index : Index := {}
  min_start_time : Option ℚ := none
  pos_name : Option String := none
  x_pos : Option ℚ := none
  y_pos : Option ℚ := none
  z_pos : Option ℚ := none
  exposure : Option ℚ := none
  channel : Option (String × String) := none
  autofocus : AnyAF := .noAF
  sequence : Option ℕ := none
  global_index : ℕ := 0
deriving DecidableEq, Repr

/-! ## Cartesian product of the enumerated axis iterations -/

/-- One element of the cross product: for each used axis (in order) the
`(axis, (enumeration index, value))` entry, i.e. `dict(zip(order, item))`
together with the `enumerate` counters. -/
abbrev Combo := List (Axis × ℕ × AxisVal)

/-- `itertools.product`: the first list varies slowest. -/
def cartProd : List (List α) → List (List α)
  | [] => [[]]
  | l :: L => l.flatMap fun a => (cartProd L).map (a :: ·)

/-- Lookup of one axis in a combination (`_ev[ax]`). -/
def comboFind (cb : Combo) (ax : Axis) : Option (ℕ × AxisVal) :=
  (cb.find? fun e => e.1 == ax).map Prod.snd

/-- `index = {k: _ev[k][0] for k in INDICES if k in _ev}`. -/
def comboIndex (cb : Combo) : Index where
  t := (comboFind cb .t).map Prod.fst
  p := (comboFind cb .p).map Prod.fst
  g := (comboFind cb .g).map Prod.fst
  c := (comboFind cb .c).map Prod.fst
  z := (comboFind cb .z).map Prod.fst

/-- `_ev[POSITION][1] if POSITION in _ev else None`. -/
def comboPosition (cb : Combo) : Option Position :=
  match comboFind cb .p with
  | some (_, .pos p) => some p
  | _ => none

/-- `_ev[CHANNEL][1] if CHANNEL in _ev else None`. -/
def comboChannel (cb : Combo) : Option Channel :=
  match comboFind cb .c with
  | some (_, .chan c) => some c
  | _ => none

/-- `_ev[TIME][1] if TIME in _ev else None`. -/
def comboTime (cb : Combo) : Option ℚ :=
  match comboFind cb .t with
  | some (_, .time v) => some v
  | _ => none

/-- `_ev[GRID][1] if GRID in _ev else None`. -/
def comboGrid (cb : Combo) : Option GridPosition :=
  match comboFind cb .g with
  | some (_, .grid g) => some g
  | _ => none

/-- The z entry `(index, value)` of a combination, if any. -/
def comboZ (cb : Combo) : Option (ℕ × ℚ) :=
  match comboFind cb .z with
  | some (zi, .zval v) => some (zi, v)
  | _ => none

/-- The full ordered combination list of one sequence: the Cartesian
product, in `used_axes` order, of the enumerated axis iterations
(`iter_sequence` lines 422–423). -/
def MDASequence.comboList (s : MDASequence) : List Combo :=
  cartProd (s.used_axes.map fun ax => (s.iter_axis ax).enum.map fun iv => (ax, iv))

/-! ## Sub-sequence merging helpers -/

/-- `_shift_axis` (lines 773–786): undefined only when both the parent's
committed coordinate and the sub-event's resolved coordinate are
undefined; otherwise their sum with the parent's `None` treated as 0. -/
def shiftAxis (new_val sub_pos : Option ℚ) : Option ℚ :=
  match new_val, sub_pos with
  | none, none => none
  | nv, some sp => some (nv.getD 0 + sp)
  | some nv, none => some nv

/-- The keyword-argument dict built by `_maybe_shifted_positions`: each
field is `none` when the corresponding key is absent (so the sub-event's
own value survives `copy(update=...)`). -/
structure ShiftKW where
  zq : Option (Option ℚ) := none
  xq : Option (Option ℚ) := none
  yq : Option (Option ℚ) := none

/-- `_maybe_shifted_positions` (lines 742–770): parent-resolved z (or x/y)
is passed through when the position's sub-sequence has no z (grid) plan
of its own; shifted by the parent position's static coordinate when the
sub-plan is relative; left to the sub-event for an absolute sub-plan. -/
def maybeShiftedPositions (sub_event : MDAEvent) (position : Position)
    (z_pos x_pos y_pos : Option ℚ) : ShiftKW :=
  match position.sequence with
  | none => {}
  | some pos_seq =>
    let zkw : Option (Option ℚ) :=
      match pos_seq.z_plan with
      | none => some z_pos
      | some zp =>
        if zp.is_relative then some (shiftAxis position.z sub_event.z_pos)
        else none
    let xykw : Option ((Option ℚ) × (Option ℚ)) :=
      match pos_seq.grid_plan with
      | none => some (x_pos, y_pos)
      | some gp =>
        if gp.is_relative then
          some (shiftAxis position.x sub_event.x_pos,
                shiftAxis position.y sub_event.y_pos)
        else none
    { zq := zkw, xq := xykw.map Prod.fst, yq := xykw.map Prod.snd }

/-- `position.name or pos_name` (an empty string is falsy). -/
def strOr : Option String → Option String → Option String
  | some s, b => if s.isEmpty then b else some s
  | none, b => b

/-- `pos_seq.replace(autofocus_plan=sequence.autofocus_plan)` applied when
the position's sequence has no autofocus plan of its own
(lines 510–511). -/
def prepSub (q : MDASequence) (parentAF : AnyAF) : MDASequence :=
  match q.autofocus_plan with
  | .noAF => q.replaceAF parentAF
  | .axesBased _ => q

/-- The parent-event context a sub-event inherits from. -/
structure ParentCtx where
  position : Position
  index : Index
  pos_name : Option String
  time : Option ℚ
  exposure : Option ℚ
  channel : Option (String × String)
  x_pos : Option ℚ
  y_pos : Option ℚ
  z_pos : Option ℚ

/-- The `for sub_event in events_list` merge loop (lines 525–578): each
sub-event is copied with the parent's running `global_index`, the merged
index, the top-of-recursion sequence reference, inherited
time/exposure/channel (sub-event wins when defined), possibly shifted
positions, and a re-derived autofocus directive; the autofocus state is
re-seeded from the position's sequence when empty or when tracking an axis
outside that plan's axes. -/
def mergeLoop (s pos_seq : MDASequence) (ctx : ParentCtx) :
    List MDAEvent → ℕ → AFState → List MDAEvent × ℕ × AFState
  | [], gi, afAxes => ([], gi, afAxes)
  | e :: rest, gi, afAxes =>
    let kw := maybeShiftedPositions e ctx.position ctx.z_pos ctx.x_pos ctx.y_pos
    let mergedIndex := Index.merge ctx.index e.index
    let afAxes :=
      if afAxes.isEmpty then getAutofocusAxes pos_seq
      else if afAxes.any (fun en =>
          pos_seq.autofocus_plan.isAxesBased &&
          !((match pos_seq.autofocus_plan with
             | .axesBased af => af.axes.getD []
             | .noAF => []).contains en.1)) then
        getAutofocusAxes pos_seq
      else afAxes
    let afPair := setupAutofocus pos_seq afAxes mergedIndex (kw.zq.getD none) (some s)
    let ev : MDAEvent :=
      { e with
        global_index := gi
        index := mergedIndex
        sequence := some s.uid
        pos_name := strOr ctx.position.name ctx.pos_name
        min_start_time := e.min_start_time.orElse fun _ => ctx.time
        exposure := e.exposure.orElse fun _ => ctx.exposure
        channel := e.channel.orElse fun _ => ctx.channel
        z_pos := match kw.zq with | some v => v | none => e.z_pos
        x_pos := match kw.xq with | some v => v | none => e.x_pos
        y_pos := match kw.yq with | some v => v | none => e.y_pos
        autofocus := afPair.1 }
    let rec' := mergeLoop s pos_seq ctx rest (gi + 1) afPair.2
    (ev :: rec'.1, rec'.2)

/-- Processing of one combination of the product (`iter_sequence` loop
body, lines 424–595): skip checks, value extraction, z/xy resolution,
autofocus, then either the recursive sub-sequence merge (via the
pre-computed `tbl` of sub-sequence event lists, one entry per stage
position) or the emission of a single event. -/
def processCombo (s : MDASequence) (tbl : List (List MDAEvent)) (cb : Combo)
    (gi : ℕ) (afAxes : AFState) : List MDAEvent × ℕ × AFState :=
  if cb.isEmpty then ([], gi, afAxes)
  else
  let index := comboIndex cb
  let position := comboPosition cb
  let channel := comboChannel cb
  if skipEvent channel position index then ([], gi, afAxes)
  else if subSequenceSkip position index then ([], gi, afAxes)
  else
  let pos_name := position.bind Position.name
  let time := comboTime cb
  let grid := comboGrid cb
  let exposure := channel.bind Channel.exposure
  let evChannel := channel.map fun ch => (ch.config, ch.group)
  match getZ s (comboZ cb) position channel with
  | .error _ => ([], gi, afAxes)
  | .ok z_pos =>
    let xy : Option ℚ × Option ℚ :=
      match grid with
      | some gr => getGridXY position gr
      | none => (position.bind Position.x, position.bind Position.y)
    let afPair :=
      if s.autofocus_plan.isAxesBased then setupAutofocus s afAxes index z_pos none
      else (.noAF, afAxes)
    let autofocus := afPair.1
    let afAxes := afPair.2
    let emit : List MDAEvent × ℕ × AFState :=
      ([{ index := index, min_start_time := time, pos_name := pos_name,
          x_pos := xy.1, y_pos := xy.2, z_pos := z_pos, autofocus := autofocus,
          exposure := exposure, channel := evChannel, sequence := some s.uid,
          global_index := gi }], gi + 1, afAxes)
    match position with
    | none => emit
    | some pos =>
      match pos.sequence with
      | none => emit
      | some q =>
        if q.truthy || q.autofocus_plan.truthy then
          let pos_seq := prepSub q s.autofocus_plan
          let afAxes :=
            match autofocus with
            | .axesBased af =>
              if af.axes.isSome && !(af.axes.getD []).isEmpty then
                (af.axes.getD []).foldl (fun st ax => afAssign st ax none) afAxes
              else afAxes
            | .noAF => afAxes
          let subEvs :=
            match (comboFind cb .p).map Prod.fst with
            | some i => (tbl.get? i).getD []
            | none => []
          let events_list :=
            if subEvs.isEmpty then [{ autofocus := q.autofocus_plan : MDAEvent }]
            else subEvs
          let ctx : ParentCtx :=
            { position := pos, index := index, pos_name := pos_name,
              time := time, exposure := exposure, channel := evChannel,
              x_pos := xy.1, y_pos := xy.2, z_pos := z_pos }
          mergeLoop s pos_seq ctx events_list gi afAxes
        else emit

/-- The main loop of `iter_sequence`: fold `processCombo` over the
combination list, threading the global index and the autofocus state. -/
def iterGo (s : MDASequence) (tbl : List (List MDAEvent)) :
    List Combo → ℕ → AFState → List MDAEvent × ℕ × AFState
  | [], gi, afAxes => ([], gi, afAxes)
  | cb :: rest, gi, afAxes =>
    let step := processCombo s tbl cb gi afAxes
    let next := iterGo s tbl rest step.2.1 step.2.2
    (step.1 ++ next.1, next.2)

/-! ## Recursion depth and the top-level iterator -/

mutual
/-- Nesting depth of sub-sequences inside a sequence (used as fuel for
`iter_sequence`; validation forbids depth > 2 but the model terminates
regardless). -/
def seqDepth : MDASequence → ℕ
  | .mk _ _ poss _ _ _ _ _ _ _ => posListDepth poss + 1

/-- Maximum `posDepth` over a list of positions. -/
def posListDepth : List Position → ℕ
  | [] => 0
  | p :: rest => max (posDepth p) (posListDepth rest)

/-- Depth contributed by one position's optional sub-sequence. -/
def posDepth : Position → ℕ
  | .mk _ _ _ _ none => 0
  | .mk _ _ _ _ (some s) => seqDepth s
end

/-- Fuel-indexed body of `iter_sequence`: the per-position sub-sequence
event lists are pre-computed (they depend only on the position and the
parent's autofocus plan), then the combination list is folded.  With fuel
at least `seqDepth s` this is exactly the source's recursion; `0` fuel is
never reached from `iter_sequence`. -/
def iterSeqAux : ℕ → MDASequence → List MDAEvent
  | 0, _ => []
  | fuel + 1, s =>
    let tbl := s.stage_positions.map fun p =>
      match p.sequence with
      | some q => iterSeqAux fuel (prepSub q s.autofocus_plan)
      | none => []
    (iterGo s tbl s.comboList 0 (getAutofocusAxes s)).1

/-- `iter_sequence` (lines 394–595): the full ordered event stream of one
top-level iteration. -/
def iter_sequence (s : MDASequence) : List MDAEvent :=
  iterSeqAux (seqDepth s) s

/-- `MDASequence.__len__` with an empty cache: the number of events one
fresh iteration yields. -/
def MDASequence.length (s : MDASequence) : ℕ :=
  (iter_sequence s).length

/-- `MDASequence.__len__` including the `_length` cache private attribute
(threaded explicitly): returns the cached value when present, otherwise
iterates and caches. -/
def lenWithCache (s : MDASequence) (cache : Option ℕ) : ℕ × Option ℕ :=
  match cache with
  | some n => (n, some n)
  | none => ((iter_sequence s).length, some (iter_sequence s).length)

/-! ## Construction-time validation (`_check_order`) -/

/-- Rule 1 of `_check_order` (lines 227–237): `z` precedes `p` in the
acquisition order, a (truthy) z plan is configured, and some stage
position carries a (truthy) sub-sequence with its own z plan. -/
def checkOrderCond1 (s : MDASequence) : Bool :=
  s.axis_order.contains .z && s.axis_order.contains .p &&
    s.axis_order.indexOf .z < s.axis_order.indexOf .p &&
    s.z_plan.isSome &&
    s.stage_positions.any fun pos =>
      match pos.sequence with
      | some q => q.truthy && q.z_plan.isSome
      | none => false

/-- Rule 4 of `_check_order` (lines 268–275): some stage position carries a
sub-sequence that itself defines stage positions. -/
def checkOrderCond4 (s : MDASequence) : Bool :=
  s.axis_order.contains .p && !s.stage_positions.isEmpty &&
    s.stage_positions.any fun pos =>
      match pos.sequence with
      | some q => q.truthy && !q.stage_positions.isEmpty
      | none => false

/-- Rule 5 of `_check_order` (lines 277–283): `z` in the order, an absolute
(non-relative) z plan, and an axes-based autofocus plan.  (`_z.py` is not
in the source tree; following spec §4.1 rule 5 — "if Z axis is absolute"
— the no-op `NoZ` plan does not count as absolute.) -/
def checkOrderCond5 (s : MDASequence) : Bool :=
  s.axis_order.contains .z &&
    (match s.z_plan with
     | some zp => !zp.is_relative
     | none => false) &&
    s.autofocus_plan.isAxesBased

/-- The fatal message of rule 1. -/
def zPrecedesPositionMsg : String :=
  "z cannot precede p in acquisition order if any position specifies a z_plan"

/-- The fatal message of rule 4. -/
def nestedPositionsMsg : String :=
  "Currently, a Position sequence cannot have multiple stage positions!"

/-- The fatal message of rule 5. -/
def absoluteZAutofocusMsg : String :=
  "Autofocus plan cannot be used with absolute Z positions!"

/-- `MDASequence._check_order`, run from the `validate_mda` root validator
at construction time (rules 2 and 3 of the source emit non-fatal warnings
and do not affect the result): the first matching fatal rule's error, in
source order, else success. -/
def MDASequence.check_order (s : MDASequence) : Except String Unit :=
  if checkOrderCond1 s then .error zPrecedesPositionMsg
  else if checkOrderCond4 s then .error nestedPositionsMsg
  else if checkOrderCond5 s then .error absoluteZAutofocusMsg
  else .ok ()

/-! ## Equality and hashing -/

/-- `MDASequence.__hash__` (lines 163–164): `hash(self.uid)` — a function
of the uid alone. -/
def MDASequence.hashValue (s : MDASequence) : ℕ := s.uid

/-- `MDASequence.__eq__` (lines 211–216):
`self.dict(exclude={"uid"}) == other.dict(exclude={"uid"})` — all declared
fields compared, the uid excluded (private attributes such as `_fov_size`
do not appear in `dict()`). -/
def MDASequence.eqExclUid (s t : MDASequence) : Prop :=
  s.metadata = t.metadata ∧ s.axis_order = t.axis_order ∧
  s.stage_positions = t.stage_positions ∧ s.grid_plan = t.grid_plan ∧
  s.channels = t.channels ∧ s.time_plan = t.time_plan ∧
  s.z_plan = t.z_plan ∧ s.autofocus_plan = t.autofocus_plan

/-! ## Derived observation used for the autofocus re-trigger analysis -/

/-- `prev` = the position index of the previously emitted event (`none`
before the first event): checks that an event carries an axes-based
autofocus directive exactly when its position index differs from the
previous event's. -/
def afTriggerRuns : Option ℕ → List MDAEvent → Bool
  | _, [] => true
  | prev, e :: rest =>
    (e.autofocus.isAxesBased == decide (e.index.p ≠ prev)) &&
      afTriggerRuns e.index.p rest

/-- The position index of the last event of the list (falling back to
`prev` for the empty list). -/
def lastPIdx (prev : Option ℕ) : List MDAEvent → Option ℕ
  | [] => prev
  | e :: rest => lastPIdx e.index.p rest

/-! ## Concrete sequences used by the claims -/

/-- Spec §8 example: `axis_order="tpcz"`, a 2-loop time plan, one stage
position, one channel with `do_stack = true`, a 4-step z plan. -/
def exC1 : MDASequence :=
  .mk [] [.t, .p, .c, .z]
    [.mk (some 1) (some 1) (some 1) none none]
    none
    [{ config := "DAPI", exposure := some 10 }]
    (some [0, 1])
    (some ⟨[0, 1, 2, 3], true⟩)
    .noAF 0 (1, 1)

/-- A sub-sequence defining only a z plan (4 steps). -/
def subQ : MDASequence :=
  .mk [] [.t, .p, .g, .c, .z] [] none [] none
    (some ⟨[10, 20, 30, 40], true⟩) .noAF 1 (1, 1)

/-- A parent sequence with a 2-loop time plan, a 3-step z plan, and one
stage position whose sub-sequence defines only a z plan of 4 steps. -/
def exC3 : MDASequence :=
  .mk [] [.t, .p, .g, .c, .z]
    [.mk (some 1) (some 2) (some 3) (some "posA") (some subQ)]
    none [] (some [0, 1]) (some ⟨[0, 1, 2], true⟩) .noAF 2 (1, 1)

/-- Two stage positions, a 2-loop time plan and an axes-based autofocus
plan keyed on the position axis. -/
def exC4 : MDASequence :=
  .mk [] [.t, .p, .g, .c, .z]
    [.mk (some 0) (some 0) (some 0) none none,
     .mk (some 5) (some 5) (some 1) none none]
    none [] (some [0, 1]) none
    (.axesBased { axes := some [.p], autofocus_z_device_name := some "zdev",
                  af_motor_offset := some 0 })
    7 (1, 1)

/-- One stage position with undefined x/y and a relative grid plan yielding
a single grid value with defined x/y deltas. -/
def exC5 : MDASequence :=
  .mk [] [.t, .p, .g, .c, .z]
    [.mk none none none none none]
    (some ⟨fun _ _ => [⟨some 5, some 7, true⟩], true⟩)
    [] none none .noAF 4 (1, 1)

/-- A grid plan whose tile count depends on the injected field-of-view
size: one tile at the default `(1, 1)`, two tiles at `(2, 2)`. -/
def exC6 : MDASequence :=
  .mk [] [.t, .p, .g, .c, .z] []
    (some ⟨fun w _ =>
      if w ≤ 1 then [⟨some 0, some 0, false⟩]
      else [⟨some 0, some 0, false⟩, ⟨some 9, some 9, false⟩], false⟩)
    [] none none .noAF 5 (1, 1)

/-- A 2-loop time plan and one channel with `do_stack = false` over a
5-step z plan. -/
def exC7 : MDASequence :=
  .mk [] [.t, .p, .g, .c, .z] [] none
    [{ config := "DAPI", do_stack := false }]
    (some [0, 1]) (some ⟨[10, 20, 30, 40, 50], false⟩) .noAF 3 (1, 1)

/-- A sequence violating rule 1: `z` before `p`, a z plan, and a position
whose sub-sequence has its own z plan. -/
def exC8 : MDASequence :=
  .mk [] [.t, .z, .p, .c]
    [.mk (some 0) (some 0) none none (some subQ)]
    none [] none (some ⟨[0, 1], true⟩) .noAF 6 (1, 1)

/-- Two sequences with identical declared fields and distinct uids. -/
def exC9a : MDASequence :=
  .mk [] [.t, .p, .g, .c, .z]
    [.mk (some 1) (some 2) none none none]
    none [{ config := "FITC" }] (some [0]) none .noAF 100 (1, 1)

/-- See `exC9a`: same field values, different uid. -/
def exC9b : MDASequence :=
  .mk [] [.t, .p, .g, .c, .z]
    [.mk (some 1) (some 2) none none none]
    none [{ config := "FITC" }] (some [0]) none .noAF 101 (1, 1)

/-- An axes-based autofocus plan whose only trigger axis (`t`) is unused
(no time plan), over one plain stage position. -/
def exC10 : MDASequence :=
  .mk [] [.t, .p, .g, .c, .z]
    [.mk (some 1) (some 1) (some 1) none none]
    none [] none none
    (.axesBased { axes := some [.t], autofocus_z_device_name := some "zdev",
                  af_motor_offset := some 0 })
    8 (1, 1)

/-! ## Claim theorems -/

/-- **C3.** A stage position whose sub-sequence defines its own z plan
makes the parent skip every combination with a nonzero Z index
(`_skip`, rule 4c), so the event total for such a position is the number
of parent combinations without z variation times the sub-sequence's
length: in `exC3` (2 time points × 1 position, parent z plan of size 3,
sub-sequence z plan of size 4) the iteration yields 2 × 4 = 8 events,
not 2 × 3 × 4. -/
theorem C3_subsequence_z_skip :
    (∀ (channel : Option Channel) (pos : Position) (index : Index)
       (q : MDASequence), pos.sequence = some q → q.z_plan.isSome = true →
       index.z.isSome = true → index.z ≠ some 0 →
       skipEvent channel (some pos) index = true)
    ∧ exC3.sizes .t = 2 ∧ exC3.sizes .p = 1 ∧ exC3.sizes .z = 3
    ∧ (iter_sequence subQ).length = 4
    ∧ (iter_sequence exC3).length = 2 * 4
    ∧ (iter_sequence exC3).length ≠ 2 * 3 * 4 := by
  refine ⟨?_, by decide, by decide, by decide, by decide, by decide, by decide⟩
  intro channel pos index q hq hz hzi hnz
  have htr : q.truthy = true := by
    simp only [MDASequence.truthy, hz, Bool.or_true, Bool.true_or]
  have hsub : subSequenceSkip (some pos) index = true := by
    simp only [subSequenceSkip, hq, htr, if_true]
    simp only [Bool.if_true_left, Bool.if_false_left, Bool.or_eq_true,
      Bool.and_eq_true, decide_eq_true_eq]
    tauto
  unfold skipEvent
  match channel, index.t with
  | some ch, some ti =>
    by_cases hm : ti % ch.acquire_every ≠ 0
    · simp [hm]
    · simp [hm, hsub]
  | some ch, none => exact hsub
  | none, some ti => exact hsub
  | none, none => exact hsub

/-- **C3 witness.** The general skip rule applied at a concrete channel-free
combination of `exC3`: position with sub-sequence `subQ`, Z index 1. -/
theorem C3_subsequence_z_skip_witness :
    skipEvent none (some (Position.mk (some 1) (some 2) (some 3) (some "posA")
      (some subQ))) { z := some 1 } = true :=
  C3_subsequence_z_skip.1 none _ { z := some 1 } subQ rfl (by decide)
    (by decide) (by decide)

/-- **C5 counterexample.** In `exC5` the single stage position has
undefined x and y, the grid plan is relative, yet the resolved event x/y
are both defined (the engine coerces the undefined base to 0), refuting
"the resolved event x (or y) is undefined". -/
theorem C5_undefined_base_cex :
    exC5.stage_positions.map (fun pos => (pos.x, pos.y)) = [(none, none)]
    ∧ exC5.grid_plan.map GridPlanData.is_relative = some true
    ∧ (iter_sequence exC5).map (fun e => (e.x_pos.isSome, e.y_pos.isSome)) =
        [(true, true)] := by
  refine ⟨by decide, ?_, by decide⟩
  rfl

/-- **C5 (amended).** For a relative grid value, an undefined position base
coordinate is treated as zero: the resolved x (or y) equals the grid
value's own delta unchanged, and is therefore undefined exactly when the
grid value's component is undefined — it is not the position's
undefinedness that propagates. -/
theorem C5_undefined_base_amended (position : Option Position)
    (grid : GridPosition) (hrel : grid.is_relative = true)
    (hx : position.bind Position.x = none)
    (hy : position.bind Position.y = none) :
    (getGridXY position grid).1 = grid.x ∧ (getGridXY position grid).2 = grid.y := by
  simp only [getGridXY, hrel, if_true, hx, hy, Option.getD_none]
  constructor
  · cases grid.x <;> simp
  · cases grid.y <;> simp

/-- **C5 witness.** The amended statement at a concrete input: no position,
relative grid delta `(5, 7)`. -/
theorem C5_undefined_base_amended_witness :
    (getGridXY none ⟨some 5, some 7, true⟩).1 = some 5
    ∧ (getGridXY none ⟨some 5, some 7, true⟩).2 = some 7 :=
  C5_undefined_base_amended none ⟨some 5, some 7, true⟩ rfl rfl rfl

/-- **C6 (code bug).** `set_fov_size` does not invalidate the `_length`
cache: with `exC6` (grid count 1 at fov `(1,1)`, 2 at fov `(2,2)`), the
count computed and cached at the default fov is 1; after
`set_fov_size((2,2))` the cached query still answers the stale 1, while a
fresh iteration under the new field of view yields 2 events. -/
theorem C6_fov_cache_not_invalidated :
    lenWithCache exC6 none = (1, some 1)
    ∧ lenWithCache (exC6.set_fov_size (2, 2)) (lenWithCache exC6 none).2 =
        (1, some 1)
    ∧ (iter_sequence (exC6.set_fov_size (2, 2))).length = 2 := by
  exact ⟨by decide, by decide, by decide⟩

/-- **C7.** For a channel with `do_stack = false`, `_combine_z` raises the
internal skip-frame signal exactly at the z indices other than
`len(z_plan) // 2`; the signal is caught inside `iter_sequence` (the
model's iterator is a total function), so in `exC7` (5-step z plan,
2 time points) exactly the central plane `z = 2` is emitted once per time
point and iteration yields a plain list. -/
theorem C7_central_plane_only :
    (∀ (s : MDASequence) (zp : ℚ) (zi : ℕ) (ch : Channel)
       (pos : Option Position), ch.do_stack = false →
       (s.combine_z zp zi (some ch) pos = Except.error () ↔
         zi ≠ s.zPlanLen / 2))
    ∧ (iter_sequence exC7).map (fun e => (e.index.t, e.index.c, e.index.z, e.z_pos)) =
        [(some 0, some 0, some 2, some 30), (some 1, some 0, some 2, some 30)] := by
  refine ⟨?_, by decide⟩
  intro s zp zi ch pos hds
  unfold MDASequence.combine_z
  by_cases h : zi = s.zPlanLen / 2 <;> simp [hds, h]

/-- **C7 witness.** The skip-signal equivalence applied at `exC7`,
z index 0 (≠ 2 = 5 // 2): the internal signal is raised. -/
theorem C7_central_plane_only_witness :
    exC7.combine_z 10 0 (some { config := "DAPI", do_stack := false }) none =
      Except.error () :=
  (C7_central_plane_only.1 exC7 10 0 { config := "DAPI", do_stack := false }
    none rfl).mpr (by decide)

/-- **C8.** Construction rejects — with the rule-1 message, checked before
any other fatal rule — exactly the aggregates where `z` precedes `p` in
the acquisition order, a z plan is configured, and some position carries a
sub-sequence with its own z plan; an aggregate matching no fatal rule
validates successfully (iteration itself is a total function and never
raises). -/
theorem C8_z_before_p_rejected :
    (∀ s : MDASequence,
       s.check_order = Except.error zPrecedesPositionMsg ↔
         checkOrderCond1 s = true)
    ∧ (∀ s : MDASequence, checkOrderCond1 s = false →
       checkOrderCond4 s = false → checkOrderCond5 s = false →
       s.check_order = Except.ok ()) := by
  constructor
  · intro s
    unfold MDASequence.check_order
    constructor
    · intro h
      by_cases h1 : checkOrderCond1 s = true
      · exact h1
      · exfalso
        simp only [h1, if_false, Bool.false_eq_true] at h
        by_cases h4 : checkOrderCond4 s = true <;>
          by_cases h5 : checkOrderCond5 s = true <;>
            simp only [h4, h5, if_true, if_false, Bool.false_eq_true] at h <;>
              first
                | exact absurd (Except.error.inj h) (by decide)
                | exact Except.noConfusion h
    · intro h1
      simp [h1]
  · intro s h1 h4 h5
    simp [MDASequence.check_order, h1, h4, h5]

/-- **C8 witness.** Rule 1 firing on `exC8` (order `tzpc`, z plan, position
sub-sequence with z plan) and validation succeeding on `exC1`. -/
theorem C8_z_before_p_rejected_witness :
    exC8.check_order = Except.error zPrecedesPositionMsg
    ∧ exC1.check_order = Except.ok () :=
  ⟨(C8_z_before_p_rejected.1 exC8).mpr (by decide),
   C8_z_before_p_rejected.2 exC1 (by decide) (by decide) (by decide)⟩

/-- **C9.** Hashing is a function of the uid alone while equality compares
content with the uid excluded: any two sequences agreeing on every
declared field but carrying distinct uids are `__eq__`-equal yet have
different hash values. -/
theorem C9_content_eq_identity_hash (s t : MDASequence)
    (h1 : s.metadata = t.metadata) (h2 : s.axis_order = t.axis_order)
    (h3 : s.stage_positions = t.stage_positions)
    (h4 : s.grid_plan = t.grid_plan) (h5 : s.channels = t.channels)
    (h6 : s.time_plan = t.time_plan) (h7 : s.z_plan = t.z_plan)
    (h8 : s.autofocus_plan = t.autofocus_plan) (hu : s.uid ≠ t.uid) :
    s.eqExclUid t ∧ s.hashValue ≠ t.hashValue :=
  ⟨⟨h1, h2, h3, h4, h5, h6, h7, h8⟩, hu⟩

/-- **C9 witness.** `exC9a`/`exC9b`: identical field values, uids 100 and
101 — content-equal, hash-distinct. -/
theorem C9_content_eq_identity_hash_witness :
    exC9a.eqExclUid exC9b ∧ exC9a.hashValue ≠ exC9b.hashValue :=
  C9_content_eq_identity_hash exC9a exC9b rfl rfl rfl rfl rfl rfl rfl rfl
    (by decide)

/-! ## The global-index law -/

/-- Each pass of the sub-event merge loop emits exactly one event carrying
the running counter, so the loop's output indices are the contiguous range
starting at the incoming counter and the outgoing counter advances by the
number of events. -/
theorem mergeLoop_globalIndex (s q : MDASequence) (ctx : ParentCtx) :
    ∀ (evs : List MDAEvent) (gi : ℕ) (af : AFState),
      (mergeLoop s q ctx evs gi af).1.length = evs.length ∧
      (mergeLoop s q ctx evs gi af).1.map MDAEvent.global_index =
        List.range' gi evs.length ∧
      (mergeLoop s q ctx evs gi af).2.1 = gi + evs.length := by
  intro evs
  induction evs with
  | nil => intro gi af; exact ⟨rfl, rfl, rfl⟩
  | cons e rest ih =>
    intro gi af
    simp only [mergeLoop, List.length_cons, List.map_cons]
    refine ⟨?_, ?_, ?_⟩
    · rw [(ih (gi + 1) _).1]
    · rw [show List.range' gi (rest.length + 1) =
          gi :: List.range' (gi + 1) rest.length from rfl]
      exact congrArg₂ List.cons rfl (ih (gi + 1) _).2.1
    · rw [(ih (gi + 1) _).2.2]
      omega

/-- Restatement of `mergeLoop_globalIndex` in terms of the output length,
in the shape needed inside `processCombo_globalIndex`. -/
theorem mergeLoop_globalIndex_self {s q : MDASequence} {ctx : ParentCtx}
    {evs : List MDAEvent} {gi : ℕ} {af : AFState} :
    (mergeLoop s q ctx evs gi af).1.map MDAEvent.global_index =
      List.range' gi (mergeLoop s q ctx evs gi af).1.length ∧
    (mergeLoop s q ctx evs gi af).2.1 =
      gi + (mergeLoop s q ctx evs gi af).1.length := by
  obtain ⟨hl, hm, hg⟩ := mergeLoop_globalIndex s q ctx evs gi af
  rw [hl]
  exact ⟨hm, hg⟩

/-- Processing one combination either skips (no event, counter unchanged)
or yields events indexed contiguously from the incoming counter, the
counter advancing by their number. -/
theorem processCombo_globalIndex (s : MDASequence) (tbl : List (List MDAEvent))
    (cb : Combo) (gi : ℕ) (af : AFState) :
    (processCombo s tbl cb gi af).1.map MDAEvent.global_index =
      List.range' gi (processCombo s tbl cb gi af).1.length ∧
    (processCombo s tbl cb gi af).2.1 =
      gi + (processCombo s tbl cb gi af).1.length := by
  unfold processCombo
  dsimp only
  split
  · exact ⟨rfl, rfl⟩
  split
  · exact ⟨rfl, rfl⟩
  split
  · exact ⟨rfl, rfl⟩
  split
  · exact ⟨rfl, rfl⟩
  next z_pos _ =>
    split
    · exact ⟨rfl, rfl⟩
    next pos =>
      split
      · exact ⟨rfl, rfl⟩
      next q hq =>
        split
        · exact mergeLoop_globalIndex_self
        · exact ⟨rfl, rfl⟩

/-- Folding over a combination list: the emitted events carry exactly the
contiguous indices from the incoming counter, and the outgoing counter
advances by the total emitted count. -/
theorem iterGo_globalIndex (s : MDASequence) (tbl : List (List MDAEvent)) :
    ∀ (combos : List Combo) (gi : ℕ) (af : AFState),
      (iterGo s tbl combos gi af).1.map MDAEvent.global_index =
        List.range' gi (iterGo s tbl combos gi af).1.length ∧
      (iterGo s tbl combos gi af).2.1 =
        gi + (iterGo s tbl combos gi af).1.length := by
  intro combos
  induction combos with
  | nil => intro gi af; exact ⟨rfl, rfl⟩
  | cons cb rest ih =>
    intro gi af
    simp only [iterGo, List.map_append, List.length_append]
    obtain ⟨pm, pg⟩ := processCombo_globalIndex s tbl cb gi af
    obtain ⟨rm, rg⟩ := ih (processCombo s tbl cb gi af).2.1
      (processCombo s tbl cb gi af).2.2
    refine ⟨?_, ?_⟩
    · rw [pm, rm, pg]
      rw [show gi + (processCombo s tbl cb gi af).1.length =
          gi + 1 * (processCombo s tbl cb gi af).1.length by ring]
      rw [List.range'_append]
      ring_nf
    · rw [rg, pg]
      omega

/-- **C2.** The `global_index` values of one full top-level iteration are
exactly `0, 1, …, total − 1` in emission order — skipped combinations do
not consume an index and sub-sequence recursion continues the parent's
counter — and `__len__` (fresh cache) equals the number of events the
iteration yields. -/
theorem C2_global_index_contiguous (s : MDASequence) :
    (iter_sequence s).map MDAEvent.global_index =
      List.range (iter_sequence s).length
    ∧ s.length = (iter_sequence s).length := by
  refine ⟨?_, rfl⟩
  rw [List.range_eq_range']
  unfold iter_sequence iterSeqAux
  split
  · rfl
  · exact (iterGo_globalIndex _ _ _ 0 _).1

/-! ## Well-formedness of combinations drawn from the product -/

/-- Membership in the product: one choice from each input list, aligned. -/
theorem mem_cartProd {α : Type} :
    ∀ {ll : List (List α)} {cb : List α},
      cb ∈ cartProd ll ↔ List.Forall₂ (· ∈ ·) cb ll := by
  intro ll
  induction ll with
  | nil =>
    intro cb
    simp only [cartProd, List.mem_singleton]
    constructor
    · rintro rfl; exact List.Forall₂.nil
    · intro h; cases h; rfl
  | cons l L ih =>
    intro cb
    simp only [cartProd, List.mem_flatMap, List.mem_map]
    constructor
    · rintro ⟨a, ha, c, hc, rfl⟩
      exact List.Forall₂.cons ha (ih.mp hc)
    · intro h
      cases h with
      | cons hR hF => exact ⟨_, hR, _, ih.mpr hF, rfl⟩

/-- A `Forall₂` relation gives, for each left element, a related right
element. -/
theorem forall₂_exists_right {α β : Type} {R : α → β → Prop} :
    ∀ {l₁ : List α} {l₂ : List β}, List.Forall₂ R l₁ l₂ →
      ∀ e ∈ l₁, ∃ b ∈ l₂, R e b := by
  intro l₁ l₂ h
  induction h with
  | nil => intro e he; cases he
  | cons hR hF ih =>
    intro e he
    rcases List.mem_cons.mp he with rfl | he₂
    · exact ⟨_, List.mem_cons_self _ _, hR⟩
    · obtain ⟨b, hb, hRb⟩ := ih e he₂
      exact ⟨b, List.mem_cons_of_mem _ hb, hRb⟩

/-- A `Forall₂` relation gives, for each right element, a related left
element. -/
theorem forall₂_exists_left {α β : Type} {R : α → β → Prop} :
    ∀ {l₁ : List α} {l₂ : List β}, List.Forall₂ R l₁ l₂ →
      ∀ b ∈ l₂, ∃ e ∈ l₁, R e b := by
  intro l₁ l₂ h
  induction h with
  | nil => intro b hb; cases hb
  | cons hR hF ih =>
    intro b hb
    rcases List.mem_cons.mp hb with rfl | hb₂
    · exact ⟨_, List.mem_cons_self _ _, hR⟩
    · obtain ⟨e, he, hRe⟩ := ih b hb₂
      exact ⟨e, List.mem_cons_of_mem _ he, hRe⟩

/-- Every entry of a combination of `s.comboList` pairs a used axis with an
element of that axis's enumerated iteration. -/
theorem comboList_entries {s : MDASequence} {cb : Combo}
    (h : cb ∈ s.comboList) :
    ∀ e ∈ cb, e.1 ∈ s.used_axes ∧ e.2 ∈ (s.iter_axis e.1).enum := by
  intro e he
  have h₂ := mem_cartProd.mp h
  obtain ⟨b, hb, heb⟩ := forall₂_exists_right h₂ e he
  obtain ⟨ax, hax, rfl⟩ := List.mem_map.mp hb
  obtain ⟨iv, hiv, rfl⟩ := List.mem_map.mp heb
  exact ⟨hax, hiv⟩

/-- A successful `comboFind` on a product combination returns an element of
that axis's enumerated iteration. -/
theorem comboFind_mem {s : MDASequence} {cb : Combo} (h : cb ∈ s.comboList)
    {ax : Axis} {iv : ℕ × AxisVal} (hf : comboFind cb ax = some iv) :
    iv ∈ (s.iter_axis ax).enum := by
  unfold comboFind at hf
  obtain ⟨e, he, rfl⟩ := Option.map_eq_some'.mp hf
  have hmem := List.mem_of_find?_eq_some he
  have hpred := List.find?_some he
  obtain ⟨a, iv₂⟩ := e
  have hax : a = ax := by
    cases a <;> cases ax <;> first | rfl | exact Bool.noConfusion hpred
  subst hax
  exact (comboList_entries h _ hmem).2

/-- Every used axis occurs in every combination of the product. -/
theorem comboFind_isSome {s : MDASequence} {cb : Combo}
    (h : cb ∈ s.comboList) {ax : Axis} (hax : ax ∈ s.used_axes) :
    (comboFind cb ax).isSome = true := by
  have h₂ := mem_cartProd.mp h
  have hb : ((s.iter_axis ax).enum.map fun iv => (ax, iv)) ∈
      s.used_axes.map fun a => (s.iter_axis a).enum.map fun iv => (a, iv) :=
    List.mem_map.mpr ⟨ax, hax, rfl⟩
  obtain ⟨e, he, heb⟩ := forall₂_exists_left h₂ _ hb
  obtain ⟨iv, _, rfl⟩ := List.mem_map.mp heb
  unfold comboFind
  rw [Option.isSome_map']
  rw [List.find?_isSome]
  exact ⟨(ax, iv), he, by cases ax <;> rfl⟩

/-- The position extracted from a product combination belongs to
`stage_positions`. -/
theorem comboPosition_mem {s : MDASequence} {cb : Combo}
    (h : cb ∈ s.comboList) {pos : Position}
    (hp : comboPosition cb = some pos) : pos ∈ s.stage_positions := by
  unfold comboPosition at hp
  split at hp
  · next i p heq =>
    cases hp
    have := comboFind_mem h heq
    rw [List.mem_enum_iff_get?] at this
    simp only [MDASequence.iter_axis] at this
    rw [List.get?_map] at this
    obtain ⟨a, ha, hav⟩ := Option.map_eq_some'.mp this
    cases hav
    exact List.get?_mem ha
  · cases hp

/-! ## Product-order emission (C1) -/

/-- When the combination's position carries no sub-sequence, processing
emits zero or one event, and an emitted event's index mapping is exactly
the combination's index mapping. -/
theorem processCombo_noSub (s : MDASequence) (tbl : List (List MDAEvent))
    (cb : Combo) (gi : ℕ) (af : AFState)
    (hp : ∀ pos, comboPosition cb = some pos → pos.sequence = none) :
    (processCombo s tbl cb gi af).1 = [] ∨
    ∃ e, (processCombo s tbl cb gi af).1 = [e] ∧ e.index = comboIndex cb := by
  unfold processCombo
  dsimp only
  split
  · exact Or.inl rfl
  split
  · exact Or.inl rfl
  split
  · exact Or.inl rfl
  split
  · exact Or.inl rfl
  split
  · exact Or.inr ⟨_, rfl, rfl⟩
  next pos heq =>
    split
    · exact Or.inr ⟨_, rfl, rfl⟩
    next q hq =>
      rw [hp pos heq] at hq
      exact Option.noConfusion hq

/-- Folding combinations whose positions carry no sub-sequence: the emitted
index mappings form a subsequence (in order) of the product's index
mappings. -/
theorem iterGo_index_sublist (s : MDASequence) (tbl : List (List MDAEvent)) :
    ∀ (combos : List Combo) (gi : ℕ) (af : AFState),
      (∀ cb ∈ combos, ∀ pos, comboPosition cb = some pos →
        pos.sequence = none) →
      ((iterGo s tbl combos gi af).1.map MDAEvent.index).Sublist
        (combos.map comboIndex) := by
  intro combos
  induction combos with
  | nil => intro gi af _; exact List.Sublist.refl _
  | cons cb rest ih =>
    intro gi af h
    simp only [iterGo, List.map_append, List.map_cons]
    have hrest := ih (processCombo s tbl cb gi af).2.1
      (processCombo s tbl cb gi af).2.2
      fun cb' hc' => h cb' (List.mem_cons_of_mem _ hc')
    rcases processCombo_noSub s tbl cb gi af (h cb (List.mem_cons_self _ _))
      with h0 | ⟨e, he, hei⟩
    · rw [h0]
      simp only [List.map_nil, List.nil_append]
      exact hrest.cons _
    · rw [he]
      simp only [List.map_cons, List.map_nil, List.singleton_append]
      rw [hei]
      exact hrest.cons₂ _

/-- **C1.** Events are emitted in Cartesian-product order over `used_axes`
taken in `axis_order` (for sub-sequence-free aggregates, the emitted index
mappings are an in-order subsequence of the product-order index mappings);
in particular `exC1` (`axis_order "tpcz"`, 2-loop time plan, 1 position,
1 channel with `do_stack = true`, 4-step z plan) yields exactly 8 events,
`t` ∈ {0,1} outermost and `z` ∈ {0,1,2,3} innermost. -/
theorem C1_product_order :
    (∀ s : MDASequence,
       (s.stage_positions.all fun pos => pos.sequence.isNone) = true →
       ((iter_sequence s).map MDAEvent.index).Sublist
         (s.comboList.map comboIndex))
    ∧ (iter_sequence exC1).map
        (fun e => (e.index.t, e.index.p, e.index.c, e.index.z)) =
        [(some 0, some 0, some 0, some 0), (some 0, some 0, some 0, some 1),
         (some 0, some 0, some 0, some 2), (some 0, some 0, some 0, some 3),
         (some 1, some 0, some 0, some 0), (some 1, some 0, some 0, some 1),
         (some 1, some 0, some 0, some 2), (some 1, some 0, some 0, some 3)]
    ∧ (iter_sequence exC1).length = 2 * 1 * 1 * 4 := by
  refine ⟨?_, by decide, by decide⟩
  intro s hall
  have key : ∀ fuel : ℕ,
      ((iterSeqAux fuel s).map MDAEvent.index).Sublist
        (s.comboList.map comboIndex) := by
    intro fuel
    cases fuel with
    | zero => exact List.nil_sublist _
    | succ n =>
      simp only [iterSeqAux]
      refine iterGo_index_sublist s _ s.comboList 0 (getAutofocusAxes s) ?_
      intro cb hcb pos hpos
      exact Option.isNone_iff_eq_none.mp
        (List.all_eq_true.mp hall pos (comboPosition_mem hcb hpos))
  exact key (seqDepth s)

/-- **C1 witness.** The order statement applied at the sub-sequence-free
`exC1`. -/
theorem C1_product_order_witness :
    ((iter_sequence exC1).map MDAEvent.index).Sublist
      (exC1.comboList.map comboIndex) :=
  C1_product_order.1 exC1 (by decide)

/-! ## Autofocus re-trigger analysis (C4) -/

/-- `comboFind` fails on axes outside `used_axes`. -/
theorem comboFind_none_of_unused {s : MDASequence} {cb : Combo}
    (h : cb ∈ s.comboList) {ax : Axis} (hax : ax ∉ s.used_axes) :
    comboFind cb ax = none := by
  cases hfind : comboFind cb ax with
  | none => rfl
  | some iv =>
    exfalso
    unfold comboFind at hfind
    obtain ⟨e, he, hsnd⟩ := Option.map_eq_some'.mp hfind
    have hmem := List.mem_of_find?_eq_some he
    have hpred := List.find?_some he
    obtain ⟨a, iv₂⟩ := e
    have ha : a = ax := by
      cases a <;> cases ax <;> first | rfl | exact Bool.noConfusion hpred
    subst ha
    exact hax (comboList_entries h _ hmem).1

/-- With no z plan, `z` is not a used axis. -/
theorem z_not_used_of_no_zplan (s : MDASequence) (hz : s.z_plan = none) :
    Axis.z ∉ s.used_axes := by
  intro hmem
  unfold MDASequence.used_axes at hmem
  have := List.of_mem_filter hmem
  rw [decide_eq_true_eq] at this
  refine this ?_
  simp [MDASequence.sizes, MDASequence.iter_axis, hz]

/-- The `p` entry of a product combination: the enumeration counter and a
stage position of the aggregate, agreeing with `comboPosition` and the
index mapping. -/
theorem comboP_struct {s : MDASequence} {cb : Combo} (h : cb ∈ s.comboList)
    (hpu : Axis.p ∈ s.used_axes) :
    ∃ (pi : ℕ) (pos : Position), comboFind cb .p = some (pi, .pos pos) ∧
      pos ∈ s.stage_positions ∧ comboPosition cb = some pos ∧
      (comboIndex cb).p = some pi := by
  have hs := comboFind_isSome h hpu
  obtain ⟨iv, hiv⟩ := Option.isSome_iff_exists.mp hs
  obtain ⟨i₁, v₁⟩ := iv
  have hmem := comboFind_mem h hiv
  rw [List.mem_enum_iff_get?] at hmem
  simp only [MDASequence.iter_axis] at hmem
  rw [List.get?_map] at hmem
  obtain ⟨pos, hpos, hval⟩ := Option.map_eq_some'.mp hmem
  refine ⟨i₁, pos, ?_, List.get?_mem hpos, ?_, ?_⟩
  · rw [hiv, ← hval]
  · unfold comboPosition
    rw [hiv, ← hval]
  · show (comboFind cb .p).map Prod.fst = some i₁
    rw [hiv]
    rfl

/-- With a defined position z and no z entry in the combination, `_get_z`
returns a defined z. -/
theorem getZ_some_of_pos_z (s : MDASequence) {pos : Position}
    (hz : pos.z.isSome = true) (channel : Option Channel) :
    ∃ zq : ℚ, getZ s none (some pos) channel = .ok (some zq) := by
  obtain ⟨pz, hpz⟩ := Option.isSome_iff_exists.mp hz
  cases hoff : channel.bind Channel.z_offset with
  | some off =>
    refine ⟨pz + off, ?_⟩
    unfold getZ
    dsimp only
    rw [hpz, hoff]
  | none =>
    refine ⟨pz, ?_⟩
    unfold getZ
    dsimp only
    rw [hpz, hoff]

/-- `_setup_autofocus` on the singleton `p`-tracking state: triggers
exactly when the recorded value differs from the current position index,
and afterwards records the current position index. -/
theorem setupAutofocus_pTrack (s : MDASequence) (dev : String) (moff : ℚ)
    (haf : s.autofocus_plan = .axesBased
      { axes := some [.p], autofocus_z_device_name := some dev,
        z_stage_position := none, af_motor_offset := some moff })
    {idx : Index} {pi : ℕ} (hip : idx.p = some pi) (hiz : idx.z = none)
    (prev : Option ℕ) (zq : ℚ) :
    setupAutofocus s [(.p, prev)] idx (some zq) none =
      (if prev = some pi then AnyAF.noAF
       else .axesBased { axes := some [.p], autofocus_z_device_name := some dev,
                         z_stage_position := some zq,
                         af_motor_offset := some moff },
       [(.p, some pi)]) := by
  have hg : Index.get idx .p = some pi := hip
  by_cases hprev : prev = some pi
  · subst hprev
    simp [setupAutofocus, hg, haf, afRecordLoop, afAssign]
  · simp only [setupAutofocus, List.filter_cons, List.filter_nil, hg,
      Option.isSome_some, if_true, List.isEmpty_cons, Bool.false_eq_true,
      if_false, List.any_cons, List.any_nil, Bool.or_false,
      bne_iff_ne, ne_eq, hprev, not_false_eq_true, if_neg hprev]
    rw [haf, hiz]
    simp [afRecordLoop, hg, afAssign]

/-- Processing one product combination with the singleton `p`-tracking
state: either the combination is skipped (state untouched), or exactly one
event is emitted, carrying an axes-based autofocus directive iff its
position index differs from the recorded one; the state then records the
event's position index. -/
theorem processCombo_pTrack (s : MDASequence) (tbl : List (List MDAEvent))
    (dev : String) (moff : ℚ)
    (haf : s.autofocus_plan = .axesBased
      { axes := some [.p], autofocus_z_device_name := some dev,
        z_stage_position := none, af_motor_offset := some moff })
    (hz : s.z_plan = none)
    (hpos : (s.stage_positions.all fun pos =>
      pos.sequence.isNone && pos.z.isSome) = true)
    (hpu : Axis.p ∈ s.used_axes)
    {cb : Combo} (hcb : cb ∈ s.comboList) (gi : ℕ) (prev : Option ℕ) :
    ((processCombo s tbl cb gi [(.p, prev)]).1 = [] ∧
      (processCombo s tbl cb gi [(.p, prev)]).2.2 = [(.p, prev)]) ∨
    (∃ e, (processCombo s tbl cb gi [(.p, prev)]).1 = [e] ∧
      (e.autofocus.isAxesBased = true ↔ e.index.p ≠ prev) ∧
      (processCombo s tbl cb gi [(.p, prev)]).2.2 = [(.p, e.index.p)]) := by
  obtain ⟨pi, pos, hfp, hposmem, hcp, hidxp⟩ := comboP_struct hcb hpu
  have hflags := List.all_eq_true.mp hpos pos hposmem
  rw [Bool.and_eq_true] at hflags
  have hseq : pos.sequence = none := Option.isNone_iff_eq_none.mp hflags.1
  have hposz : pos.z.isSome = true := hflags.2
  have hcz : comboZ cb = none := by
    unfold comboZ
    rw [comboFind_none_of_unused hcb (z_not_used_of_no_zplan s hz)]
  have hiz : (comboIndex cb).z = none := by
    show (comboFind cb .z).map Prod.fst = none
    rw [comboFind_none_of_unused hcb (z_not_used_of_no_zplan s hz)]
    rfl
  obtain ⟨zq, hzq⟩ := getZ_some_of_pos_z s hposz (comboChannel cb)
  unfold processCombo
  dsimp only
  split
  · exact Or.inl ⟨rfl, rfl⟩
  split
  · exact Or.inl ⟨rfl, rfl⟩
  split
  · exact Or.inl ⟨rfl, rfl⟩
  split
  · exact Or.inl ⟨rfl, rfl⟩
  next z_pos hgz =>
    rw [hcz, hcp] at hgz
    rw [hzq] at hgz
    have hzp : z_pos = some zq := (Except.ok.inj hgz).symm
    subst hzp
    have hb : s.autofocus_plan.isAxesBased = true := by rw [haf]; rfl
    have hpair : (if s.autofocus_plan.isAxesBased = true
        then setupAutofocus s [(.p, prev)] (comboIndex cb) (some zq) none
        else (AnyAF.noAF, [(.p, prev)])) =
        (if prev = some pi then AnyAF.noAF
         else .axesBased { axes := some [.p],
                           autofocus_z_device_name := some dev,
                           z_stage_position := some zq,
                           af_motor_offset := some moff },
         [(.p, some pi)]) := by
      rw [if_pos hb]
      exact setupAutofocus_pTrack s dev moff haf hidxp hiz prev zq
    rw [hpair, hcp]
    dsimp only
    rw [hseq]
    dsimp only
    by_cases hprev : prev = some pi
    · rw [if_pos hprev]
      refine Or.inr ⟨_, rfl, ?_, ?_⟩
      · dsimp only [AnyAF.isAxesBased]
        rw [hidxp, hprev]
        simp
      · dsimp only
        rw [hidxp]
    · rw [if_neg hprev]
      refine Or.inr ⟨_, rfl, ?_, ?_⟩
      · dsimp only [AnyAF.isAxesBased]
        rw [hidxp]
        simp only [true_iff]
        exact fun h => hprev h.symm
      · dsimp only
        rw [hidxp]

/-- Folding the `p`-tracking step over the product list: the emitted events
trigger autofocus exactly when the position index changes from the
previous event's. -/
theorem iterGo_pTrack (s : MDASequence) (tbl : List (List MDAEvent))
    (dev : String) (moff : ℚ)
    (haf : s.autofocus_plan = .axesBased
      { axes := some [.p], autofocus_z_device_name := some dev,
        z_stage_position := none, af_motor_offset := some moff })
    (hz : s.z_plan = none)
    (hpos : (s.stage_positions.all fun pos =>
      pos.sequence.isNone && pos.z.isSome) = true)
    (hpu : Axis.p ∈ s.used_axes) :
    ∀ (combos : List Combo), (∀ cb ∈ combos, cb ∈ s.comboList) →
      ∀ (gi : ℕ) (prev : Option ℕ),
        afTriggerRuns prev (iterGo s tbl combos gi [(.p, prev)]).1 = true := by
  intro combos
  induction combos with
  | nil => intro _ gi prev; rfl
  | cons cb rest ih =>
    intro hmem gi prev
    simp only [iterGo]
    rcases processCombo_pTrack s tbl dev moff haf hz hpos hpu
        (hmem cb (List.mem_cons_self _ _)) gi prev with
      ⟨h1, h2⟩ | ⟨e, h1, hiff, h2⟩
    · rw [h1, List.nil_append, h2]
      exact ih (fun cb' hc => hmem cb' (List.mem_cons_of_mem _ hc)) _ prev
    · rw [h1, h2, List.singleton_append]
      unfold afTriggerRuns
      rw [Bool.and_eq_true]
      constructor
      · by_cases hP : e.index.p ≠ prev
        · rw [hiff.mpr hP, decide_eq_true hP]
          rfl
        · have : e.autofocus.isAxesBased = false := by
            cases hb : e.autofocus.isAxesBased
            · rfl
            · exact absurd (hiff.mp hb) hP
          rw [this, decide_eq_false hP]
          rfl
      · exact ih (fun cb' hc => hmem cb' (List.mem_cons_of_mem _ hc)) _ e.index.p

/-- The initial autofocus state for the `p`-keyed plan. -/
theorem getAutofocusAxes_pOnly (s : MDASequence) (dev : String) (moff : ℚ)
    (haf : s.autofocus_plan = .axesBased
      { axes := some [.p], autofocus_z_device_name := some dev,
        z_stage_position := none, af_motor_offset := some moff })
    (hdev : dev.isEmpty = false) :
    getAutofocusAxes s = [(.p, none)] := by
  unfold getAutofocusAxes
  rw [haf]
  dsimp only
  simp [deviceTruthy, hdev]

/-- **C4 (amended).** For an axes-based autofocus plan keyed on the
position axis (device name truthy, motor offset set, default
`z_stage_position`), over an aggregate with no z plan, every position
carrying a defined z and no sub-sequence, and the position axis in use:
an event carries a freshly computed axes-based autofocus directive
**exactly when its position index differs from the previous event's**
(the very first event always triggers) — i.e. once per maximal run of
consecutive events sharing a position index, not once per distinct
position index. -/
theorem C4_retrigger_on_position_change (s : MDASequence) (dev : String)
    (moff : ℚ) (hdev : dev.isEmpty = false)
    (haf : s.autofocus_plan = .axesBased
      { axes := some [.p], autofocus_z_device_name := some dev,
        z_stage_position := none, af_motor_offset := some moff })
    (hz : s.z_plan = none)
    (hpos : (s.stage_positions.all fun pos =>
      pos.sequence.isNone && pos.z.isSome) = true)
    (hpu : Axis.p ∈ s.used_axes) :
    afTriggerRuns none (iter_sequence s) = true := by
  have key : ∀ fuel : ℕ, afTriggerRuns none (iterSeqAux fuel s) = true := by
    intro fuel
    cases fuel with
    | zero => rfl
    | succ n =>
      simp only [iterSeqAux]
      rw [getAutofocusAxes_pOnly s dev moff haf hdev]
      exact iterGo_pTrack s _ dev moff haf hz hpos hpu s.comboList
        (fun cb hc => hc) 0 none
  exact key (seqDepth s)

/-- **C4 counterexample.** `exC4` (2-loop time plan outermost, 2 positions,
autofocus keyed on `p`): the emitted `(p index, axes-based?)` pairs are
`[(0, true), (1, true), (0, true), (1, true)]` — the third event revisits
position index 0 (already visited by the first event) yet recomputes
autofocus, so autofocus is computed 4 times for only 2 distinct position
indices, refuting "exactly once per distinct position index" and "all
subsequent events at the same position index do not retrigger it". -/
theorem C4_once_per_position_cex :
    (iter_sequence exC4).map (fun e => (e.index.p, e.autofocus.isAxesBased)) =
      [(some 0, true), (some 1, true), (some 0, true), (some 1, true)]
    ∧ ((iter_sequence exC4).map (fun e => e.index.p)).dedup.length = 2 := by
  exact ⟨by decide, by decide⟩

/-- **C4 witness.** The amended statement applied at `exC4`. -/
theorem C4_retrigger_on_position_change_witness :
    afTriggerRuns none (iter_sequence exC4) = true :=
  C4_retrigger_on_position_change exC4 "zdev" 0 rfl rfl rfl (by decide)
    (by decide)

/-! ## Autofocus state bookkeeping (C10) -/

/-- An entry of `afAssign st ax v` either has key `ax` or comes from
`st`. -/
theorem afAssign_entry {st : AFState} {ax : Axis} {v : Option ℕ} :
    ∀ e ∈ afAssign st ax v, e.1 = ax ∨ e ∈ st := by
  intro e he
  unfold afAssign at he
  split at he
  · obtain ⟨e', he', heq⟩ := List.mem_map.mp he
    by_cases hb : (e'.1 == ax) = true
    · rw [if_pos hb] at heq
      cases heq
      exact Or.inl rfl
    · rw [if_neg hb] at heq
      cases heq
      exact Or.inr he'
  · rcases List.mem_append.mp he with h | h
    · exact Or.inr h
    · cases List.mem_singleton.mp h
      exact Or.inl rfl

/-- The record loop only ever assigns keys present in the index, so it
preserves "every tracked key appears in the index". -/
theorem afRecordLoop_keys {index : Index} :
    ∀ (axes : List Axis) (st : AFState),
      (∀ e ∈ st, (index.get e.1).isSome = true) →
      ∀ e ∈ afRecordLoop st axes index, (index.get e.1).isSome = true := by
  intro axes
  induction axes with
  | nil => intro st h e he; exact h e he
  | cons ax rest ih =>
    intro st h e he
    unfold afRecordLoop at he
    split at he
    · next v hv =>
      refine ih _ ?_ e he
      intro e' he'
      rcases afAssign_entry e' he' with h1 | h1
      · rw [h1, hv]; rfl
      · exact h e' h1
    · exact h e he

/-- Every key of the state returned by `_setup_autofocus` appears in the
current index: tracked trigger axes absent from the combination's index
are removed (and never re-added). -/
theorem setupAutofocus_state_keys (s : MDASequence) (afAxes : AFState)
    (index : Index) (zp : Option ℚ) (main : Option MDASequence) :
    ∀ e ∈ (setupAutofocus s afAxes index zp main).2,
      (index.get e.1).isSome = true := by
  intro e he
  unfold setupAutofocus at he
  dsimp only at he
  split at he
  · exact (List.mem_filter.mp he).2
  · dsimp only at he
    split at he
    · exact afRecordLoop_keys _ _ (fun e' he' => (List.mem_filter.mp he').2) e he
    · exact (List.mem_filter.mp he).2

/-- `Index.get` on a combination's index mapping is the enumeration
counter found by `comboFind`. -/
theorem comboIndex_get (cb : Combo) (ax : Axis) :
    Index.get (comboIndex cb) ax = (comboFind cb ax).map Prod.fst := by
  cases ax <;> rfl

/-- Keys present in a product combination's index mapping are used axes. -/
theorem index_keys_used {s : MDASequence} {cb : Combo}
    (h : cb ∈ s.comboList) {ax : Axis}
    (hs : (Index.get (comboIndex cb) ax).isSome = true) :
    ax ∈ s.used_axes := by
  rw [comboIndex_get, Option.isSome_map'] at hs
  obtain ⟨iv, hiv⟩ := Option.isSome_iff_exists.mp hs
  unfold comboFind at hiv
  obtain ⟨e, he, rfl⟩ := Option.map_eq_some'.mp hiv
  have hmem := List.mem_of_find?_eq_some he
  have hpred := List.find?_some he
  obtain ⟨a, iv₂⟩ := e
  have hax : a = ax := by
    cases a <;> cases ax <;> first | rfl | exact Bool.noConfusion hpred
  subst hax
  exact (comboList_entries h _ hmem).1

/-- With a state tracking only unused axes, `_setup_autofocus` filters
everything away and reports no autofocus. -/
theorem setupAutofocus_unused (s : MDASequence) {cb : Combo}
    (hcb : cb ∈ s.comboList) (af : AFState)
    (hinv : ∀ e ∈ af, e.1 ∉ s.used_axes) (zp : Option ℚ)
    (main : Option MDASequence) :
    setupAutofocus s af (comboIndex cb) zp main = (.noAF, []) := by
  have hfil : (af.filter fun e => (Index.get (comboIndex cb) e.1).isSome) = [] := by
    rw [List.filter_eq_nil]
    intro e he hs
    exact hinv e he (index_keys_used hcb (by simpa using hs))
  unfold setupAutofocus
  dsimp only
  rw [hfil]
  rfl

/-- Processing a product combination whose position has no sub-sequence,
with a state tracking only unused axes: every emitted event carries
`NoAF` and the state still tracks only unused axes. -/
theorem processCombo_noAF (s : MDASequence) (tbl : List (List MDAEvent))
    (cb : Combo) (gi : ℕ) (af : AFState) (hcb : cb ∈ s.comboList)
    (hsub : ∀ pos, comboPosition cb = some pos → pos.sequence = none)
    (hinv : ∀ e ∈ af, e.1 ∉ s.used_axes) :
    (∀ ev ∈ (processCombo s tbl cb gi af).1, ev.autofocus = .noAF) ∧
    (∀ e ∈ (processCombo s tbl cb gi af).2.2, e.1 ∉ s.used_axes) := by
  have hpair : ∀ zp,
      (if s.autofocus_plan.isAxesBased = true then
        setupAutofocus s af (comboIndex cb) zp none
      else (.noAF, af)) = (.noAF, if s.autofocus_plan.isAxesBased then [] else af) := by
    intro zp
    by_cases hAB : s.autofocus_plan.isAxesBased = true
    · rw [if_pos hAB, setupAutofocus_unused s hcb af hinv zp none, if_pos hAB]
    · rw [if_neg hAB, if_neg hAB]
  have hinv' : ∀ e ∈ (if s.autofocus_plan.isAxesBased then ([] : AFState) else af),
      e.1 ∉ s.used_axes := by
    intro e he
    by_cases hAB : s.autofocus_plan.isAxesBased = true
    · rw [if_pos hAB] at he; cases he
    · rw [if_neg hAB] at he; exact hinv e he
  unfold processCombo
  dsimp only
  split
  · exact ⟨fun ev hev => absurd hev (List.not_mem_nil _), hinv⟩
  split
  · exact ⟨fun ev hev => absurd hev (List.not_mem_nil _), hinv⟩
  split
  · exact ⟨fun ev hev => absurd hev (List.not_mem_nil _), hinv⟩
  split
  · exact ⟨fun ev hev => absurd hev (List.not_mem_nil _), hinv⟩
  next z_pos _ =>
    rw [hpair z_pos]
    split
    · refine ⟨?_, hinv'⟩
      intro ev hev
      cases List.mem_singleton.mp hev
      rfl
    next pos heq =>
      split
      · refine ⟨?_, hinv'⟩
        intro ev hev
        cases List.mem_singleton.mp hev
        rfl
      next q hq =>
        rw [hsub pos heq] at hq
        exact Option.noConfusion hq

/-- Folding `processCombo_noAF` over the whole product. -/
theorem iterGo_noAF (s : MDASequence) (tbl : List (List MDAEvent)) :
    ∀ (combos : List Combo) (gi : ℕ) (af : AFState),
      (∀ cb ∈ combos, cb ∈ s.comboList) →
      (∀ cb ∈ combos, ∀ pos, comboPosition cb = some pos →
        pos.sequence = none) →
      (∀ e ∈ af, e.1 ∉ s.used_axes) →
      ∀ ev ∈ (iterGo s tbl combos gi af).1, ev.autofocus = .noAF := by
  intro combos
  induction combos with
  | nil => intro gi af _ _ _ ev hev; exact absurd hev (List.not_mem_nil _)
  | cons cb rest ih =>
    intro gi af hcl hsub hinv ev hev
    simp only [iterGo] at hev
    obtain ⟨hev₁, hinv₁⟩ := processCombo_noAF s tbl cb gi af
      (hcl cb (List.mem_cons_self _ _)) (hsub cb (List.mem_cons_self _ _)) hinv
    rcases List.mem_append.mp hev with h | h
    · exact hev₁ ev h
    · exact ih _ _ (fun cb' hc => hcl cb' (List.mem_cons_of_mem _ hc))
        (fun cb' hc => hsub cb' (List.mem_cons_of_mem _ hc)) hinv₁ ev h

/-- **C10.** In `_setup_autofocus`, tracked trigger axes absent from the
combination's index mapping are removed from the autofocus state (every
surviving key appears in the index); consequently, for a
sub-sequence-free aggregate whose axes-based plan has no truthy z-device
name, a `None` axes tuple, or only unused trigger axes, every emitted
event carries the no-autofocus directive. -/
theorem C10_untracked_axes_dropped :
    (∀ (s : MDASequence) (afAxes : AFState) (index : Index) (zp : Option ℚ)
       (main : Option MDASequence) (e : Axis × Option ℕ),
       e ∈ (setupAutofocus s afAxes index zp main).2 →
       (index.get e.1).isSome = true)
    ∧ (∀ s : MDASequence,
       (s.stage_positions.all fun pos => pos.sequence.isNone) = true →
       (∀ af, s.autofocus_plan = .axesBased af →
          deviceTruthy af.autofocus_z_device_name = false ∨ af.axes = none ∨
          ((af.axes.getD []).all fun ax : Axis => decide (ax ∉ s.used_axes)) =
            true) →
       ((iter_sequence s).all fun ev => decide (ev.autofocus = AnyAF.noAF)) =
         true) := by
  constructor
  · intro s afAxes index zp main e he
    exact setupAutofocus_state_keys s afAxes index zp main e he
  · intro s hall hplan
    rw [List.all_eq_true]
    have hnone : ∀ ev ∈ iter_sequence s, ev.autofocus = .noAF := by
      have hinv0 : ∀ e ∈ getAutofocusAxes s, e.1 ∉ s.used_axes := by
        intro e he
        unfold getAutofocusAxes at he
        split at he
        · next afd heq =>
          split at he
          · next hcond =>
            obtain ⟨ax, hax, rfl⟩ := List.mem_map.mp he
            rcases hplan afd heq with hdev | haxn | hun
            · rw [Bool.and_eq_true] at hcond
              rw [hdev] at hcond
              exact absurd hcond.2 (by decide)
            · rw [haxn] at hcond
              simp at hcond
            · intro hctr
              have := List.all_eq_true.mp hun ax hax
              exact absurd hctr (by simpa using this)
          · cases he
        · cases he
      have key : ∀ fuel : ℕ, ∀ ev ∈ iterSeqAux fuel s, ev.autofocus = .noAF := by
        intro fuel
        cases fuel with
        | zero => intro ev hev; exact absurd hev (List.not_mem_nil _)
        | succ n =>
          simp only [iterSeqAux]
          refine iterGo_noAF s _ s.comboList 0 (getAutofocusAxes s)
            (fun cb hc => hc) ?_ hinv0
          intro cb hcb pos hpos
          exact Option.isNone_iff_eq_none.mp
            (List.all_eq_true.mp hall pos (comboPosition_mem hcb hpos))
      exact key (seqDepth s)
    intro ev hev
    rw [decide_eq_true_eq]
    exact hnone ev hev

/-- **C10 witness.** The removal lemma applied at a concrete
`_setup_autofocus` call on `exC4`'s plan (the `t` entry of the state is
dropped, the surviving `p` key is in the index), and the engine statement
applied at `exC10` (trigger axis `t` unused: the only event carries
`NoAF`). -/
theorem C10_untracked_axes_dropped_witness :
    (Index.get { p := some 0 } .p).isSome = true
    ∧ ((iter_sequence exC10).all fun ev => decide (ev.autofocus = AnyAF.noAF)) =
        true :=
  ⟨C10_untracked_axes_dropped.1 exC4 [(.t, none), (.p, none)] { p := some 0 }
      (some 1) none (.p, some 0) (by decide),
   C10_untracked_axes_dropped.2 exC10 (by decide)
     (fun af haf => by
       rw [show exC10.autofocus_plan = AnyAF.axesBased
           { axes := some [.t], autofocus_z_device_name := some "zdev",
             af_motor_offset := some 0 } from rfl] at haf
       injection haf with h
       subst h
       exact Or.inr (Or.inr (by decide)))⟩

end Useq
